import Mathlib

/-!
Verification development for the galette GAL-assembler middle stage:
blueprint assembly (equation lowering, OLMC accumulation) and the fuse
report emitter.  The Rust sources embedded here are `blueprint.rs` and
`writer.rs`.  The `chips`, `gal` and `parser` modules are external to
the given sources; the handful of data definitions taken from them are
modelled from the specification and marked as such.
-/

namespace Galette

/-- Modelled from the spec: the `chips` module is not among the given
sources.  The four chip variants, from the table in the data-model
section of the specification. -/
inductive Chip where
  | GAL16V8
  | GAL20V8
  | GAL22V10
  | GAL20RA10
deriving DecidableEq

/-- Modelled from the spec: pin counts per chip (GAL16V8 has 20 pins,
the other three have 24), matching the table in the specification and
the pin-count arithmetic in `interop.rs`. -/
def Chip.num_pins : Chip → Nat
  | .GAL16V8 => 20
  | .GAL20V8 => 24
  | .GAL22V10 => 24
  | .GAL20RA10 => 24

/-- Modelled from the spec: number of OLMCs per chip. -/
def Chip.num_olmcs : Chip → Nat
  | .GAL16V8 => 8
  | .GAL20V8 => 8
  | .GAL22V10 => 10
  | .GAL20RA10 => 10

/-- Modelled from the spec: map a pin number to its OLMC index, `none`
for non-OLMC pins.  OLMC pin ranges come from the chip table
(12..19, 15..22, 14..23, 14..23); the subtracted offsets agree with
`pin_to_olmc` in `writer.rs`. -/
def Chip.pin_to_olmc : Chip → Nat → Option Nat
  | .GAL16V8, p => if 12 ≤ p ∧ p ≤ 19 then some (p - 12) else none
  | .GAL20V8, p => if 15 ≤ p ∧ p ≤ 22 then some (p - 15) else none
  | .GAL22V10, p => if 14 ≤ p ∧ p ≤ 23 then some (p - 14) else none
  | .GAL20RA10, p => if 14 ≤ p ∧ p ≤ 23 then some (p - 14) else none

/-- Modelled from the spec: a pin reference, an integer pin number plus
a negation flag (`gal::Pin`). -/
structure Pin where
  neg : Bool
  pin : Nat
deriving DecidableEq

/-- Modelled from the spec: a sum-of-products term (`gal::Term`): the
outer list is the OR of AND-groups, each a list of pin literals, plus
the source line for diagnostics. -/
structure Term where
  line_num : Nat
  pins : List (List Pin)
deriving DecidableEq

/-- Modelled from the spec: the constant-true term, one empty AND-group. -/
def true_term (line_num : Nat) : Term :=
  { line_num := line_num, pins := [[]] }

/-- Modelled from the spec: the constant-false term, no AND-groups. -/
def false_term (line_num : Nat) : Term :=
  { line_num := line_num, pins := [] }

/-- Modelled from the spec: equation suffixes (`parser::Suffix`). -/
inductive Suffix where
  | None
  | T
  | R
  | E
  | CLK
  | ARST
  | APRST
deriving DecidableEq

/-- Modelled from the spec: the left-hand side of an equation
(`parser::LHS`): an output pin with a suffix, or the global AR / SP. -/
inductive LHS where
  | Pin (act_pin : Pin) (suffix : Suffix)
  | Ar
  | Sp
deriving DecidableEq

/-- Modelled from the spec: a parsed equation (`parser::Equation`):
LHS, ordered RHS literals, and the parallel `is_or` flags splitting the
RHS into AND-groups. -/
structure Equation where
  line_num : Nat
  lhs : LHS
  rhs : List Pin
  is_or : List Bool
deriving DecidableEq

/-- Modelled from the spec: parser output (`parser::Content`). -/
structure Content where
  chip : Chip
  sig : List Nat
  pins : List String
  eqns : List Equation
deriving DecidableEq

/-- The error codes raised by the blueprint stage (`errors::ErrorCode`). -/
inductive ErrorCode where
  | RepeatedARSP
  | NotAnOutput
  | InvertedPower
  | RepeatedOutput
  | InvertedControl
  | RepeatedTristate
  | PrematureENABLE
  | UnmatchedTristate
  | TristateReg
  | PrematureCLK
  | PrematureARST
  | PrematureAPRST
  | InvalidControl
  | RepeatedCLK
  | RepeatedARST
  | RepeatedAPRST
deriving DecidableEq

/-- An error code tagged with the source line (`errors::Error`, as
attached by `errors::at_line` in `Blueprint::from`). -/
structure Error where
  line : Nat
  code : ErrorCode
deriving DecidableEq

/-- Output pin mode (`blueprint::PinMode`). -/
inductive PinMode where
  | Combinatorial
  | Tristate
  | Registered
deriving DecidableEq

/-- Output polarity (`blueprint::Active`). -/
inductive Active where
  | Low
  | High
deriving DecidableEq

/-- One output logic macrocell record (`blueprint::OLMC`). -/
structure OLMC where
  active : Active
  output : Option (PinMode × Term)
  tri_con : Option Term
  clock : Option Term
  arst : Option Term
  aprst : Option Term
  feedback : Bool
deriving DecidableEq

/-- The mode stored in `output`, if any. -/
def OLMC.outputMode (o : OLMC) : Option PinMode :=
  o.output.map Prod.fst

/-- The blueprint (`blueprint::Blueprint`). -/
structure Blueprint where
  chip : Chip
  sig : List Nat
  pins : List String
  olmcs : List OLMC
  ar : Option Term
  sp : Option Term
deriving DecidableEq

/-- The default OLMC record used by `Blueprint::new`. -/
def defOLMC : OLMC :=
  { active := Active.Low, output := none, tri_con := none,
    clock := none, arst := none, aprst := none, feedback := false }

/-- `Blueprint::new`: a fresh blueprint with `num_olmcs` default OLMCs. -/
def Blueprint.new (chip : Chip) : Blueprint :=
  { chip := chip, sig := [], pins := [],
    olmcs := List.replicate chip.num_olmcs defOLMC,
    ar := none, sp := none }

/-- The loop body of `eqn_to_term`: when the literal's `is_or` flag is
set, close the current AND-group (`acc.2`) into the OR list (`acc.1`)
and start a new group; always append the literal to the current group. -/
def stepFn (acc : List (List Pin) × List Pin) (pf : Pin × Bool) :
    List (List Pin) × List Pin :=
  if pf.2 then (acc.1 ++ [acc.2], [pf.1]) else (acc.1, acc.2 ++ [pf.1])

/-- The accumulator loop of `eqn_to_term`: walk the zipped RHS with
`stepFn`, then close the final group. -/
def lower_rhs (rhs : List Pin) (is_or : List Bool) : List (List Pin) :=
  let p := (rhs.zip is_or).foldl stepFn ([], [])
  p.1 ++ [p.2]

/-- `eqn_to_term` from `blueprint.rs`: a single-literal RHS naming the
VCC pin (`num_pins`) or the GND pin (`num_pins / 2`) lowers to the
true / false constant (or `InvertedPower` when negated); everything
else goes through the accumulator loop. -/
def eqn_to_term (chip : Chip) (eqn : Equation) : Except ErrorCode Term :=
  match eqn.rhs with
  | [pin] =>
    if pin.pin = chip.num_pins then
      if pin.neg then Except.error ErrorCode.InvertedPower
      else Except.ok (true_term eqn.line_num)
    else if pin.pin = chip.num_pins / 2 then
      if pin.neg then Except.error ErrorCode.InvertedPower
      else Except.ok (false_term eqn.line_num)
    else
      Except.ok { line_num := eqn.line_num, pins := lower_rhs eqn.rhs eqn.is_or }
  | _ =>
    Except.ok { line_num := eqn.line_num, pins := lower_rhs eqn.rhs eqn.is_or }

/-- `OLMC::set_base` from `blueprint.rs`.  The Rust function matches on
the suffix to pick the mode; `add_equation` only ever passes the
suffixes None / T / R, so the mode is taken here directly (the other
suffixes hit an unreachable panic in the source).  Returns the
post-call OLMC state together with the error, if any. -/
def OLMC.set_base (o : OLMC) (act_pin : Pin) (term : Term) (mode : PinMode) :
    OLMC × Option ErrorCode :=
  if o.output.isSome then (o, some ErrorCode.RepeatedOutput)
  else
    ({ o with output := some (mode, term),
              active := if act_pin.neg then Active.Low else Active.High }, none)

/-- `OLMC::set_enable` from `blueprint.rs`.  Note the source assigns
`tri_con` before inspecting `output`, so the three later errors leave
the supplied term stored. -/
def OLMC.set_enable (o : OLMC) (chip : Chip) (act_pin : Pin) (term : Term) :
    OLMC × Option ErrorCode :=
  if act_pin.neg then (o, some ErrorCode.InvertedControl)
  else if o.tri_con.isSome then (o, some ErrorCode.RepeatedTristate)
  else
    let o' := { o with tri_con := some term }
    match o'.output with
    | none => (o', some ErrorCode.PrematureENABLE)
    | some (PinMode.Registered, _) =>
      if chip = Chip.GAL16V8 ∨ chip = Chip.GAL20V8 then
        (o', some ErrorCode.TristateReg)
      else (o', none)
    | some (PinMode.Combinatorial, _) => (o', some ErrorCode.UnmatchedTristate)
    | some (PinMode.Tristate, _) => (o', none)

/-- `OLMC::set_clock` from `blueprint.rs`. -/
def OLMC.set_clock (o : OLMC) (act_pin : Pin) (term : Term) :
    OLMC × Option ErrorCode :=
  if act_pin.neg then (o, some ErrorCode.InvertedControl)
  else
    match o.output with
    | none => (o, some ErrorCode.PrematureCLK)
    | some (PinMode.Registered, _) =>
      if o.clock.isSome then (o, some ErrorCode.RepeatedCLK)
      else ({ o with clock := some term }, none)
    | some _ => (o, some ErrorCode.InvalidControl)

/-- `OLMC::set_arst` from `blueprint.rs`. -/
def OLMC.set_arst (o : OLMC) (act_pin : Pin) (term : Term) :
    OLMC × Option ErrorCode :=
  if act_pin.neg then (o, some ErrorCode.InvertedControl)
  else
    match o.output with
    | none => (o, some ErrorCode.PrematureARST)
    | some (PinMode.Registered, _) =>
      if o.arst.isSome then (o, some ErrorCode.RepeatedARST)
      else ({ o with arst := some term }, none)
    | some _ => (o, some ErrorCode.InvalidControl)

/-- `OLMC::set_aprst` from `blueprint.rs`. -/
def OLMC.set_aprst (o : OLMC) (act_pin : Pin) (term : Term) :
    OLMC × Option ErrorCode :=
  if act_pin.neg then (o, some ErrorCode.InvertedControl)
  else
    match o.output with
    | none => (o, some ErrorCode.PrematureAPRST)
    | some (PinMode.Registered, _) =>
      if o.aprst.isSome then (o, some ErrorCode.RepeatedAPRST)
      else ({ o with aprst := some term }, none)
    | some _ => (o, some ErrorCode.InvalidControl)

/-- Mark one OLMC record of the list as providing feedback. -/
def setFeedback : List OLMC → Nat → List OLMC
  | [], _ => []
  | o :: os, 0 => { o with feedback := true } :: os
  | o :: os, n + 1 => o :: setFeedback os n

/-- The feedback-marking loop at the top of `Blueprint::add_equation`:
every RHS literal whose pin maps to an OLMC marks that OLMC. -/
def mark_feedback (chip : Chip) (olmcs : List OLMC) (rhs : List Pin) :
    List OLMC :=
  rhs.foldl
    (fun os input =>
      match chip.pin_to_olmc input.pin with
      | some i => setFeedback os i
      | none => os)
    olmcs

/-- The suffix dispatch at the bottom of `Blueprint::add_equation`. -/
def dispatchSuffix (chip : Chip) (o : OLMC) (act_pin : Pin) (term : Term) :
    Suffix → OLMC × Option ErrorCode
  | Suffix.R => o.set_base act_pin term PinMode.Registered
  | Suffix.T => o.set_base act_pin term PinMode.Tristate
  | Suffix.None => o.set_base act_pin term PinMode.Combinatorial
  | Suffix.E => o.set_enable chip act_pin term
  | Suffix.CLK => o.set_clock act_pin term
  | Suffix.ARST => o.set_arst act_pin term
  | Suffix.APRST => o.set_aprst act_pin term

/-- `Blueprint::add_equation` from `blueprint.rs`.  Feedback marks are
applied first (and persist even when a later step errors, as the Rust
method mutates `self` in place); then the equation is lowered; then
the LHS is dispatched.  Returns the post-call blueprint state together
with the error, if any. -/
def Blueprint.add_equation (b : Blueprint) (eqn : Equation) :
    Blueprint × Option ErrorCode :=
  let b1 := { b with olmcs := mark_feedback b.chip b.olmcs eqn.rhs }
  match eqn_to_term b1.chip eqn with
  | Except.error e => (b1, some e)
  | Except.ok term =>
    match eqn.lhs with
    | LHS.Ar =>
      if b1.ar.isSome then (b1, some ErrorCode.RepeatedARSP)
      else ({ b1 with ar := some term }, none)
    | LHS.Sp =>
      if b1.sp.isSome then (b1, some ErrorCode.RepeatedARSP)
      else ({ b1 with sp := some term }, none)
    | LHS.Pin act_pin suffix =>
      match b1.chip.pin_to_olmc act_pin.pin with
      | none => (b1, some ErrorCode.NotAnOutput)
      | some i =>
        let r := dispatchSuffix b1.chip (b1.olmcs.getD i defOLMC) act_pin term suffix
        ({ b1 with olmcs := b1.olmcs.set i r.1 }, r.2)

/-- The equation loop of `Blueprint::from`: the first error
short-circuits, tagged with the equation's line number. -/
def addEquations (b : Blueprint) : List Equation → Except Error Blueprint
  | [] => Except.ok b
  | e :: es =>
    match b.add_equation e with
    | (b', none) => addEquations b' es
    | (_, some c) => Except.error { line := e.line_num, code := c }

/-- `Blueprint::from` from `blueprint.rs` (`from` is a Lean keyword):
run the equations over a fresh blueprint, then copy signature and pin
names. -/
def Blueprint.fromContent (content : Content) : Except Error Blueprint :=
  match addEquations (Blueprint.new content.chip) content.eqns with
  | Except.error e => Except.error e
  | Except.ok b => Except.ok { b with sig := content.sig, pins := content.pins }

/-- Prepend a list of literals onto the first AND-group (helper for the
independent characterisation of the lowering walk). -/
def consFirst (xs : List Pin) : List (List Pin) → List (List Pin)
  | [] => [xs]
  | g :: gs => (xs ++ g) :: gs

/-- Prepend one literal onto the first AND-group. -/
def addFront (p : Pin) : List (List Pin) → List (List Pin)
  | [] => [[p]]
  | g :: gs => (p :: g) :: gs

/-- Independent right-to-left characterisation of the grouping walk: a
literal whose flag is set opens a group boundary immediately before
itself. -/
def groups : List (Pin × Bool) → List (List Pin)
  | [] => [[]]
  | (p, f) :: rest =>
    if f then [] :: addFront p (groups rest) else addFront p (groups rest)

/-- Whether the equation hits the power-rail special case at the top of
`eqn_to_term`: a single-literal RHS naming the VCC or GND pin. -/
def isPowerSingle (chip : Chip) (e : Equation) : Bool :=
  match e.rhs with
  | [p] => p.pin == chip.num_pins || p.pin == chip.num_pins / 2
  | _ => false

/-- The per-OLMC part of the blueprint invariants: control facets
require an output, and GAL16V8 / GAL20V8 never combine a registered
output with a tristate-enable term. -/
def olmcInv (chip : Chip) (o : OLMC) : Prop :=
  ((o.tri_con.isSome = true ∨ o.clock.isSome = true ∨ o.arst.isSome = true ∨
      o.aprst.isSome = true) → o.output.isSome = true)
  ∧ ((chip = Chip.GAL16V8 ∨ chip = Chip.GAL20V8) →
      ¬(o.tri_con.isSome = true ∧ o.outputMode = some PinMode.Registered))

/-- The `format!` padding of `"\n\x7b:>3\x7d "`: right-align the decimal
digits in a field of width three. -/
def padTo3 (s : List Char) : List Char :=
  List.replicate (3 - s.length) ' ' ++ s

/-- The row header emitted by `make_row` in `writer.rs`: a newline, the
row number right-aligned to width three, and a space. -/
def rowPrefix (row : Nat) : List Char :=
  '\n' :: (padTo3 (Nat.repr row).data ++ [' '])

/-- `make_row` from `writer.rs`: append the row header, then for each
column a space before every fourth column followed by `-` for a
non-zero fuse byte and `x` for a zero one.  The fuse array is modelled
as a function from byte index to byte value. -/
def make_row (buf : List Char) (num_of_col row : Nat) (data : Nat → Nat) :
    List Char :=
  (List.range num_of_col).foldl
    (fun b col =>
      (b ++ (if col % 4 = 0 then [' '] else [])) ++
        [if data (row * num_of_col + col) ≠ 0 then '-' else 'x'])
    (buf ++ rowPrefix row)

deriving instance DecidableEq for Except

/-- C4: `set_enable` (suffix E) returns errors with this precedence
over any OLMC state: `InvertedControl` if the reference is negated;
else `RepeatedTristate` if `tri_con` is already set; else
`PrematureENABLE` if `output` is empty; else `UnmatchedTristate` if
the output mode is Combinatorial; else `TristateReg` if the output
mode is Registered and the chip is GAL16V8 or GAL20V8; otherwise it
succeeds with the term stored as `tri_con`. -/
theorem C4_set_enable_order (chip : Chip) (p : Pin) (t : Term) (o : OLMC) :
    (o.set_enable chip p t).2 =
      (if p.neg then some ErrorCode.InvertedControl
       else if o.tri_con.isSome then some ErrorCode.RepeatedTristate
       else if o.output.isNone then some ErrorCode.PrematureENABLE
       else if o.outputMode = some PinMode.Combinatorial then
         some ErrorCode.UnmatchedTristate
       else if o.outputMode = some PinMode.Registered ∧
           (chip = Chip.GAL16V8 ∨ chip = Chip.GAL20V8) then
         some ErrorCode.TristateReg
       else none)
    ∧ ((o.set_enable chip p t).2 = none →
        (o.set_enable chip p t).1 = { o with tri_con := some t }) := by
  rcases o with ⟨a, out, tri, ck, rs, ap, fb⟩
  cases hp : p.neg <;> cases tri <;> rcases out with _ | ⟨m, tm⟩ <;>
    try cases m
  all_goals simp [OLMC.set_enable, OLMC.outputMode, hp]
  all_goals (split <;> simp_all)

/-- C4 witness: on GAL22V10, `set_enable` on a tristate output with no
prior `tri_con` succeeds and stores the term. -/
theorem C4_set_enable_order_witness :
    ({ defOLMC with output := some (PinMode.Tristate, true_term 0)
      }.set_enable Chip.GAL22V10 ⟨false, 1⟩ (true_term 0)).2 = none
    ∧ ({ defOLMC with output := some (PinMode.Tristate, true_term 0)
      }.set_enable Chip.GAL22V10 ⟨false, 1⟩ (true_term 0)).1 =
      { defOLMC with
          output := some (PinMode.Tristate, true_term 0),
          tri_con := some (true_term 0) } := by
  have h := C4_set_enable_order Chip.GAL22V10 ⟨false, 1⟩ (true_term 0)
    { defOLMC with output := some (PinMode.Tristate, true_term 0) }
  exact ⟨h.1.trans (by decide), h.2 (h.1.trans (by decide))⟩

/-- C7: each of `set_clock`, `set_arst`, `set_aprst` applies exactly
this check order on any OLMC state: `InvertedControl` if the
reference is negated; else the Premature code if `output` is empty;
else `InvalidControl` if the output mode is not Registered; else the
Repeated code if the same facet is already set; otherwise the term is
stored in that facet and the call succeeds (and errors leave the OLMC
unchanged). -/
theorem C7_control_setters (p : Pin) (t : Term) (o : OLMC) :
    o.set_clock p t =
      (if p.neg then (o, some ErrorCode.InvertedControl)
       else if o.output.isNone then (o, some ErrorCode.PrematureCLK)
       else if o.outputMode ≠ some PinMode.Registered then
         (o, some ErrorCode.InvalidControl)
       else if o.clock.isSome then (o, some ErrorCode.RepeatedCLK)
       else ({ o with clock := some t }, none))
    ∧ o.set_arst p t =
      (if p.neg then (o, some ErrorCode.InvertedControl)
       else if o.output.isNone then (o, some ErrorCode.PrematureARST)
       else if o.outputMode ≠ some PinMode.Registered then
         (o, some ErrorCode.InvalidControl)
       else if o.arst.isSome then (o, some ErrorCode.RepeatedARST)
       else ({ o with arst := some t }, none))
    ∧ o.set_aprst p t =
      (if p.neg then (o, some ErrorCode.InvertedControl)
       else if o.output.isNone then (o, some ErrorCode.PrematureAPRST)
       else if o.outputMode ≠ some PinMode.Registered then
         (o, some ErrorCode.InvalidControl)
       else if o.aprst.isSome then (o, some ErrorCode.RepeatedAPRST)
       else ({ o with aprst := some t }, none)) := by
  rcases o with ⟨a, out, tri, ck, rs, ap, fb⟩
  cases hp : p.neg <;> rcases out with _ | ⟨m, tm⟩ <;> try cases m
  all_goals
    simp [OLMC.set_clock, OLMC.set_arst, OLMC.set_aprst, OLMC.outputMode, hp]

/-- C8: whenever `set_enable` returns `PrematureENABLE`,
`UnmatchedTristate` or `TristateReg`, the OLMC's `tri_con` has already
been overwritten with the supplied term, whereas `set_clock`,
`set_arst` and `set_aprst` leave the OLMC unchanged whenever they
return an error. -/
theorem C8_error_mutation (chip : Chip) (p : Pin) (t : Term) (o : OLMC) :
    (((o.set_enable chip p t).2 = some ErrorCode.PrematureENABLE ∨
      (o.set_enable chip p t).2 = some ErrorCode.UnmatchedTristate ∨
      (o.set_enable chip p t).2 = some ErrorCode.TristateReg) →
      (o.set_enable chip p t).1.tri_con = some t)
    ∧ ((o.set_clock p t).2 ≠ none → (o.set_clock p t).1 = o)
    ∧ ((o.set_arst p t).2 ≠ none → (o.set_arst p t).1 = o)
    ∧ ((o.set_aprst p t).2 ≠ none → (o.set_aprst p t).1 = o) := by
  rcases o with ⟨a, out, tri, ck, rs, ap, fb⟩
  cases hp : p.neg <;> cases tri <;> rcases out with _ | ⟨m, tm⟩ <;>
    try cases m
  all_goals
    (cases chip <;> cases ck <;> cases rs <;> cases ap <;>
      simp [OLMC.set_enable, OLMC.set_clock, OLMC.set_arst, OLMC.set_aprst,
        OLMC.outputMode, hp])

/-- C8 witness: on a fresh OLMC, `set_enable` fails `PrematureENABLE`
yet stores the term, while a failing `set_clock` leaves the OLMC
unchanged. -/
theorem C8_error_mutation_witness :
    (defOLMC.set_enable Chip.GAL16V8 ⟨false, 1⟩ (true_term 0)).1.tri_con =
      some (true_term 0)
    ∧ (defOLMC.set_clock ⟨false, 1⟩ (true_term 0)).1 = defOLMC := by
  refine ⟨(C8_error_mutation Chip.GAL16V8 ⟨false, 1⟩ (true_term 0) defOLMC).1
    (Or.inl (by decide)), (C8_error_mutation Chip.GAL16V8 ⟨false, 1⟩
    (true_term 0) defOLMC).2.1 (by decide)⟩

/-- C1 counterexample: on GAL16V8 (not GAL22V10) with `ar` unset, an
`AR` equation does not fail with `RepeatedARSP`: `add_equation`
succeeds and `Blueprint::from` returns Ok with `ar` set, so
`ar.is_some()` does not force chip = GAL22V10. -/
theorem C1_counterexample :
    ((Blueprint.new Chip.GAL16V8).add_equation
        ⟨5, LHS.Ar, [⟨false, 2⟩], [false]⟩).2 = none
    ∧ (Blueprint.fromContent
        ⟨Chip.GAL16V8, [], [], [⟨5, LHS.Ar, [⟨false, 2⟩], [false]⟩]⟩).toOption.map
          (fun b => (b.ar.isSome, b.chip)) = some (true, Chip.GAL16V8) := by
  decide

/-- C1 (amended): for an equation with LHS `Ar` whose RHS lowers
successfully, `add_equation` fails with `RepeatedARSP` exactly when
`blueprint.ar` is already set — the chip is not consulted — and
otherwise stores the lowered term in `blueprint.ar`; analogously for
`Sp` and `blueprint.sp`.  Consequently an Ok blueprint can have `ar`
or `sp` set on any chip. -/
theorem C1_ar_sp_store (b : Blueprint) (e : Equation) (t : Term)
    (ht : eqn_to_term b.chip e = Except.ok t) :
    (e.lhs = LHS.Ar →
      (b.add_equation e).2 =
        (if b.ar.isSome then some ErrorCode.RepeatedARSP else none)
      ∧ (b.ar = none → (b.add_equation e).1.ar = some t))
    ∧ (e.lhs = LHS.Sp →
      (b.add_equation e).2 =
        (if b.sp.isSome then some ErrorCode.RepeatedARSP else none)
      ∧ (b.sp = none → (b.add_equation e).1.sp = some t)) := by
  constructor
  · intro hl
    simp only [Blueprint.add_equation, ht, hl]
    cases har : b.ar <;> simp [har]
  · intro hl
    simp only [Blueprint.add_equation, ht, hl]
    cases hsp : b.sp <;> simp [hsp]

/-- C1 witness: a fresh GAL16V8 blueprint accepts an `AR` equation and
stores its lowered term. -/
theorem C1_ar_sp_store_witness :
    ((Blueprint.new Chip.GAL16V8).add_equation
        ⟨5, LHS.Ar, [⟨false, 3⟩], [false]⟩).2 = none
    ∧ ((Blueprint.new Chip.GAL16V8).add_equation
        ⟨5, LHS.Ar, [⟨false, 3⟩], [false]⟩).1.ar =
      some { line_num := 5, pins := [[⟨false, 3⟩]] } := by
  have h := (C1_ar_sp_store (Blueprint.new Chip.GAL16V8)
    ⟨5, LHS.Ar, [⟨false, 3⟩], [false]⟩
    { line_num := 5, pins := [[⟨false, 3⟩]] } (by decide)).1 rfl
  exact ⟨by simpa using h.1, h.2 rfl⟩

/-- C2 counterexample: on GAL16V8 (20 pins) a single non-negated
literal with pin index `num_pins + 1 = 21` does not lower to the
true-constant `pins = [[]]`; it lowers as an ordinary literal. -/
theorem C2_counterexample :
    eqn_to_term Chip.GAL16V8 ⟨1, LHS.Ar, [⟨false, 21⟩], [false]⟩ =
      Except.ok { line_num := 1, pins := [[⟨false, 21⟩]] }
    ∧ ({ line_num := 1, pins := [[⟨false, 21⟩]] } : Term) ≠ true_term 1 := by
  decide

/-- C2 (amended): for every chip and equation whose RHS is a single
non-negated literal, a pin index equal to `num_pins` (the VCC
sentinel) lowers to the true-constant `pins = [[]]`, and a pin index
equal to `num_pins / 2` (GND) lowers to the false-constant
`pins = []`. -/
theorem C2_power_sentinels (chip : Chip) (e : Equation) (p : Pin)
    (h1 : e.rhs = [p]) (h2 : p.neg = false) :
    (p.pin = chip.num_pins →
      eqn_to_term chip e = Except.ok (true_term e.line_num))
    ∧ (p.pin = chip.num_pins / 2 →
      eqn_to_term chip e = Except.ok (false_term e.line_num)) := by
  constructor
  · intro hv
    simp [eqn_to_term, h1, hv, h2]
  · intro hg
    cases chip <;> simp_all [eqn_to_term, Chip.num_pins]

/-- C2 witness: on GAL16V8, `O = pin 20` gives the true-constant and
`O = pin 10` gives the false-constant. -/
theorem C2_power_sentinels_witness :
    eqn_to_term Chip.GAL16V8 ⟨1, LHS.Ar, [⟨false, 20⟩], [false]⟩ =
      Except.ok (true_term 1)
    ∧ eqn_to_term Chip.GAL16V8 ⟨2, LHS.Ar, [⟨false, 10⟩], [false]⟩ =
      Except.ok (false_term 2) :=
  ⟨(C2_power_sentinels Chip.GAL16V8 ⟨1, LHS.Ar, [⟨false, 20⟩], [false]⟩
      ⟨false, 20⟩ rfl rfl).1 rfl,
   (C2_power_sentinels Chip.GAL16V8 ⟨2, LHS.Ar, [⟨false, 10⟩], [false]⟩
      ⟨false, 10⟩ rfl rfl).2 rfl⟩

/-- C3 counterexample: two equations differing only in `is_or[0]` do
not lower to the same Term — a set first flag closes an empty
AND-group into the OR list before the first literal. -/
theorem C3_counterexample :
    eqn_to_term Chip.GAL16V8 ⟨1, LHS.Ar, [⟨false, 2⟩], [true]⟩ =
      Except.ok { line_num := 1, pins := [[], [⟨false, 2⟩]] }
    ∧ eqn_to_term Chip.GAL16V8 ⟨1, LHS.Ar, [⟨false, 2⟩], [false]⟩ =
      Except.ok { line_num := 1, pins := [[⟨false, 2⟩]] }
    ∧ ({ line_num := 1, pins := [[], [⟨false, 2⟩]] } : Term) ≠
      { line_num := 1, pins := [[⟨false, 2⟩]] } := by
  decide

/-- C6 counterexample: a negated VCC literal (pin 20 on GAL16V8) in a
two-literal RHS does not raise `InvertedPower`; the equation lowers
successfully with the negated power pin as an ordinary literal. -/
theorem C6_counterexample :
    eqn_to_term Chip.GAL16V8
        ⟨1, LHS.Ar, [⟨true, 20⟩, ⟨false, 2⟩], [false, false]⟩ =
      Except.ok { line_num := 1, pins := [[⟨true, 20⟩, ⟨false, 2⟩]] }
    ∧ eqn_to_term Chip.GAL16V8
        ⟨1, LHS.Ar, [⟨true, 20⟩, ⟨false, 2⟩], [false, false]⟩ ≠
      Except.error ErrorCode.InvertedPower := by
  decide

/-- C6 (amended): lowering an equation fails with `InvertedPower`
exactly when the RHS is a single negated literal whose pin is the VCC
pin (`num_pins`) or the GND pin (`num_pins / 2`); negated power rails
inside longer RHSs are treated as ordinary literals. -/
theorem C6_inverted_power (chip : Chip) (e : Equation) :
    eqn_to_term chip e = Except.error ErrorCode.InvertedPower ↔
      (∃ p, e.rhs = [p] ∧ p.neg = true ∧
        (p.pin = chip.num_pins ∨ p.pin = chip.num_pins / 2)) := by
  rcases e with ⟨ln, lhs, rhs, flags⟩
  match rhs with
  | [] => simp [eqn_to_term]
  | [p] =>
    by_cases hv : p.pin = chip.num_pins <;>
      by_cases hg : p.pin = chip.num_pins / 2 <;>
      cases hn : p.neg <;>
      simp_all [eqn_to_term]
  | p :: q :: rest => simp [eqn_to_term]

theorem groups_ne_nil (l : List (Pin × Bool)) : groups l ≠ [] := by
  match l with
  | [] => simp [groups]
  | (p, f) :: rest =>
    simp only [groups]
    split
    · simp
    · cases h : groups rest <;> simp [addFront]

theorem consFirst_single (p : Pin) (gs : List (List Pin)) :
    consFirst [p] gs = addFront p gs := by
  cases gs <;> simp [consFirst, addFront]

theorem foldl_stepFn (l : List (Pin × Bool)) :
    ∀ (ors : List (List Pin)) (ands : List Pin),
      (l.foldl stepFn (ors, ands)).1 ++ [(l.foldl stepFn (ors, ands)).2] =
        ors ++ consFirst ands (groups l) := by
  induction l with
  | nil =>
    intro ors ands
    simp [groups, consFirst]
  | cons pf rest ih =>
    rcases pf with ⟨p, f⟩
    intro ors ands
    cases f
    · rw [List.foldl_cons,
        show stepFn (ors, ands) (p, false) = (ors, ands ++ [p]) from rfl, ih,
        show groups ((p, false) :: rest) = addFront p (groups rest) from rfl]
      cases h : groups rest with
      | nil => simp [consFirst, addFront]
      | cons g gs => simp [consFirst, addFront]
    · rw [List.foldl_cons,
        show stepFn (ors, ands) (p, true) = (ors ++ [ands], [p]) from rfl, ih,
        show groups ((p, true) :: rest) = [] :: addFront p (groups rest)
          from rfl, consFirst_single]
      cases h : addFront p (groups rest) with
      | nil => simp [consFirst]
      | cons g gs => simp [consFirst]

theorem lower_rhs_eq_groups (rhs : List Pin) (is_or : List Bool) :
    lower_rhs rhs is_or = groups (rhs.zip is_or) := by
  have h := foldl_stepFn (rhs.zip is_or) [] []
  simp only [lower_rhs]
  rw [h]
  cases hg : groups (rhs.zip is_or) with
  | nil => exact absurd hg (groups_ne_nil _)
  | cons g gs => simp [consFirst]

/-- C3 (amended): an equation not hitting the power-rail special case
lowers by walking the RHS left to right, closing the current AND-group
into the OR list whenever a literal's `is_or` flag is set — including
the first literal, whose set flag closes an (empty) group — before
appending that literal, and closing the final group at the end; this
is the grouping computed by `groups` on the zipped RHS, so two
equations differing only in `is_or[0]` lower to different Terms. -/
theorem C3_lowering_walk (chip : Chip) (e : Equation)
    (h : isPowerSingle chip e = false) :
    eqn_to_term chip e =
      Except.ok { line_num := e.line_num,
                  pins := groups (e.rhs.zip e.is_or) } := by
  rcases e with ⟨ln, lhs, rhs, flags⟩
  match rhs with
  | [] => simp [eqn_to_term, lower_rhs_eq_groups]
  | [p] =>
    simp only [isPowerSingle, Bool.or_eq_false_iff, beq_eq_false_iff_ne,
      ne_eq] at h
    simp [eqn_to_term, h.1, h.2, lower_rhs_eq_groups]
  | p :: q :: rest => simp [eqn_to_term, lower_rhs_eq_groups]

/-- C3 witness: a three-literal RHS with an OR before the second
literal lowers to the two groups given by the walk. -/
theorem C3_lowering_walk_witness :
    eqn_to_term Chip.GAL16V8
        ⟨1, LHS.Ar, [⟨false, 2⟩, ⟨false, 3⟩, ⟨false, 4⟩],
          [false, true, false]⟩ =
      Except.ok { line_num := 1,
                  pins := groups ([⟨false, 2⟩, ⟨false, 3⟩, ⟨false, 4⟩].zip
                    [false, true, false]) } :=
  C3_lowering_walk Chip.GAL16V8
    ⟨1, LHS.Ar, [⟨false, 2⟩, ⟨false, 3⟩, ⟨false, 4⟩], [false, true, false]⟩
    (by decide)

theorem olmcInv_defOLMC (chip : Chip) : olmcInv chip defOLMC := by
  simp [olmcInv, defOLMC, OLMC.outputMode]

theorem setFeedback_forall {P : OLMC → Prop}
    (hP : ∀ o, P o → P { o with feedback := true }) :
    ∀ (l : List OLMC) (i : Nat), (∀ o ∈ l, P o) →
      ∀ o ∈ setFeedback l i, P o := by
  intro l
  induction l with
  | nil =>
    intro i h o ho
    simp [setFeedback] at ho
  | cons a as ih =>
    intro i h o ho
    cases i with
    | zero =>
      simp only [setFeedback, List.mem_cons] at ho
      rcases ho with rfl | ho
      · exact hP a (h a (List.mem_cons_self a as))
      · exact h o (List.mem_cons_of_mem a ho)
    | succ n =>
      simp only [setFeedback, List.mem_cons] at ho
      rcases ho with rfl | ho
      · exact h o (List.mem_cons_self o as)
      · exact ih n (fun x hx => h x (List.mem_cons_of_mem a hx)) o ho

theorem mark_feedback_forall {P : OLMC → Prop}
    (hP : ∀ o, P o → P { o with feedback := true }) (chip : Chip) :
    ∀ (rhs : List Pin) (l : List OLMC), (∀ o ∈ l, P o) →
      ∀ o ∈ mark_feedback chip l rhs, P o := by
  intro rhs
  induction rhs with
  | nil =>
    intro l h
    simpa [mark_feedback] using h
  | cons p ps ih =>
    intro l h
    have hstep : ∀ o ∈ (match chip.pin_to_olmc p.pin with
        | some i => setFeedback l i
        | none => l), P o := by
      cases hpo : chip.pin_to_olmc p.pin with
      | none => simpa using h
      | some j => simpa using setFeedback_forall hP l j h
    intro o ho
    exact ih _ hstep o ho

theorem set_base_inv (chip : Chip) (o : OLMC) (p : Pin) (t : Term)
    (m : PinMode) (hok : (o.set_base p t m).2 = none) (h : olmcInv chip o) :
    olmcInv chip (o.set_base p t m).1 := by
  rcases o with ⟨a, out, tri, ck, rs, ap, fb⟩
  cases out with
  | some v => simp [OLMC.set_base] at hok
  | none =>
    rcases h with ⟨h1, _⟩
    simp only [olmcInv, OLMC.outputMode, OLMC.set_base, Option.isSome_none,
      Bool.false_eq_true] at h1 ⊢
    have htri : tri = none := by
      cases htri : tri
      · rfl
      · exact absurd (h1 (Or.inl (by simp [htri]))) (by simp)
    subst htri
    simp

theorem set_enable_inv (chip : Chip) (o : OLMC) (p : Pin) (t : Term)
    (hok : (o.set_enable chip p t).2 = none) (h : olmcInv chip o) :
    olmcInv chip (o.set_enable chip p t).1 := by
  rcases o with ⟨a, out, tri, ck, rs, ap, fb⟩
  cases hp : p.neg <;> cases tri <;> rcases out with _ | ⟨m, tm⟩ <;>
    try cases m
  all_goals
    (cases chip <;>
      simp_all [OLMC.set_enable, OLMC.outputMode, olmcInv])

theorem set_clock_inv (chip : Chip) (o : OLMC) (p : Pin) (t : Term)
    (hok : (o.set_clock p t).2 = none) (h : olmcInv chip o) :
    olmcInv chip (o.set_clock p t).1 := by
  rcases o with ⟨a, out, tri, ck, rs, ap, fb⟩
  cases hp : p.neg <;> cases ck <;> rcases out with _ | ⟨m, tm⟩ <;>
    try cases m
  all_goals simp_all [OLMC.set_clock, OLMC.outputMode, olmcInv]

theorem set_arst_inv (chip : Chip) (o : OLMC) (p : Pin) (t : Term)
    (hok : (o.set_arst p t).2 = none) (h : olmcInv chip o) :
    olmcInv chip (o.set_arst p t).1 := by
  rcases o with ⟨a, out, tri, ck, rs, ap, fb⟩
  cases hp : p.neg <;> cases rs <;> rcases out with _ | ⟨m, tm⟩ <;>
    try cases m
  all_goals simp_all [OLMC.set_arst, OLMC.outputMode, olmcInv]

theorem set_aprst_inv (chip : Chip) (o : OLMC) (p : Pin) (t : Term)
    (hok : (o.set_aprst p t).2 = none) (h : olmcInv chip o) :
    olmcInv chip (o.set_aprst p t).1 := by
  rcases o with ⟨a, out, tri, ck, rs, ap, fb⟩
  cases hp : p.neg <;> cases ap <;> rcases out with _ | ⟨m, tm⟩ <;>
    try cases m
  all_goals simp_all [OLMC.set_aprst, OLMC.outputMode, olmcInv]

theorem dispatch_inv (chip : Chip) (o : OLMC) (p : Pin) (t : Term)
    (s : Suffix) (hok : (dispatchSuffix chip o p t s).2 = none)
    (h : olmcInv chip o) : olmcInv chip (dispatchSuffix chip o p t s).1 := by
  cases s
  case R => exact set_base_inv chip o p t PinMode.Registered hok h
  case T => exact set_base_inv chip o p t PinMode.Tristate hok h
  case None => exact set_base_inv chip o p t PinMode.Combinatorial hok h
  case E => exact set_enable_inv chip o p t hok h
  case CLK => exact set_clock_inv chip o p t hok h
  case ARST => exact set_arst_inv chip o p t hok h
  case APRST => exact set_aprst_inv chip o p t hok h

theorem add_equation_chip (b : Blueprint) (e : Equation) :
    (b.add_equation e).1.chip = b.chip := by
  simp only [Blueprint.add_equation]
  split
  · rfl
  · split
    · split <;> rfl
    · split <;> rfl
    · split
      · rfl
      · rfl

theorem olmcInv_feedback (chip : Chip) :
    ∀ o, olmcInv chip o → olmcInv chip { o with feedback := true } := by
  intro o h
  simpa [olmcInv, OLMC.outputMode] using h

theorem add_equation_inv (b : Blueprint) (e : Equation)
    (hok : (b.add_equation e).2 = none)
    (h : ∀ o ∈ b.olmcs, olmcInv b.chip o) :
    ∀ o ∈ (b.add_equation e).1.olmcs, olmcInv b.chip o := by
  have hmark : ∀ o ∈ mark_feedback b.chip b.olmcs e.rhs, olmcInv b.chip o :=
    mark_feedback_forall (olmcInv_feedback b.chip) b.chip e.rhs b.olmcs h
  rcases hterm : eqn_to_term b.chip e with c | t
  · have hcontra : (b.add_equation e).2 = some c := by
      simp [Blueprint.add_equation, hterm]
    rw [hcontra] at hok
    cases hok
  · rcases hlhs : e.lhs with ⟨ap, sfx⟩ | _ | _
    · rcases hpo : b.chip.pin_to_olmc ap.pin with _ | i
      · have hcontra : (b.add_equation e).2 = some ErrorCode.NotAnOutput := by
          simp [Blueprint.add_equation, hterm, hlhs, hpo]
        rw [hcontra] at hok
        cases hok
      · have h1 : (b.add_equation e).1.olmcs =
            (mark_feedback b.chip b.olmcs e.rhs).set i
              (dispatchSuffix b.chip
                ((mark_feedback b.chip b.olmcs e.rhs).getD i defOLMC)
                ap t sfx).1 := by
          simp [Blueprint.add_equation, hterm, hlhs, hpo]
        have h2 : (b.add_equation e).2 =
            (dispatchSuffix b.chip
              ((mark_feedback b.chip b.olmcs e.rhs).getD i defOLMC)
              ap t sfx).2 := by
          simp [Blueprint.add_equation, hterm, hlhs, hpo]
        rw [h2] at hok
        rw [h1]
        intro o ho
        rcases List.mem_or_eq_of_mem_set ho with hmem | rfl
        · exact hmark o hmem
        · refine dispatch_inv b.chip _ ap t sfx hok ?_
          by_cases hi : i < (mark_feedback b.chip b.olmcs e.rhs).length
          · have hmem2 : (mark_feedback b.chip b.olmcs e.rhs).getD i defOLMC ∈
                mark_feedback b.chip b.olmcs e.rhs := by
              rw [List.getD_eq_getElem _ _ hi]
              exact List.getElem_mem hi
            exact hmark _ hmem2
          · rw [List.getD_eq_default _ _ (Nat.le_of_not_lt hi)]
            exact olmcInv_defOLMC b.chip
    · have h1 : (b.add_equation e).1.olmcs =
          mark_feedback b.chip b.olmcs e.rhs := by
        simp only [Blueprint.add_equation, hterm, hlhs]
        split <;> rfl
      rw [h1]
      intro o ho
      exact hmark o ho
    · have h1 : (b.add_equation e).1.olmcs =
          mark_feedback b.chip b.olmcs e.rhs := by
        simp only [Blueprint.add_equation, hterm, hlhs]
        split <;> rfl
      rw [h1]
      intro o ho
      exact hmark o ho

theorem addEquations_inv :
    ∀ (es : List Equation) (b bp : Blueprint),
      addEquations b es = Except.ok bp →
      (∀ o ∈ b.olmcs, olmcInv b.chip o) →
      bp.chip = b.chip ∧ ∀ o ∈ bp.olmcs, olmcInv b.chip o := by
  intro es
  induction es with
  | nil =>
    intro b bp hok h
    simp only [addEquations] at hok
    cases hok
    exact ⟨rfl, h⟩
  | cons e rest ih =>
    intro b bp hok h
    simp only [addEquations] at hok
    split at hok
    · rename_i b' hstep
      have hchip : b'.chip = b.chip := by
        have := add_equation_chip b e
        rw [hstep] at this
        exact this
      have hinv : ∀ o ∈ b'.olmcs, olmcInv b'.chip o := by
        rw [hchip]
        have := add_equation_inv b e (by rw [hstep]) h
        rw [hstep] at this
        exact this
      obtain ⟨h1, h2⟩ := ih b' bp hok hinv
      exact ⟨h1.trans hchip, by rw [← hchip]; exact h2⟩
    · cases hok

/-- C5: for every Content accepted by `Blueprint::from`, every OLMC
with a non-empty `tri_con`, `clock`, `arst` or `aprst` has a non-empty
`output`, and when the chip is GAL16V8 or GAL20V8 no OLMC has output
mode Registered together with a non-empty `tri_con`. -/
theorem C5_blueprint_invariants (content : Content) (bp : Blueprint)
    (o : OLMC) (h : Blueprint.fromContent content = Except.ok bp)
    (ho : o ∈ bp.olmcs) :
    ((o.tri_con.isSome = true ∨ o.clock.isSome = true ∨
        o.arst.isSome = true ∨ o.aprst.isSome = true) →
      o.output.isSome = true)
    ∧ ((bp.chip = Chip.GAL16V8 ∨ bp.chip = Chip.GAL20V8) →
        ¬(o.tri_con.isSome = true ∧ o.outputMode = some PinMode.Registered)) := by
  revert h
  simp only [Blueprint.fromContent]
  split
  · intro h; cases h
  · rename_i b0 hadd
    intro h
    cases h
    have hinit : ∀ x ∈ (Blueprint.new content.chip).olmcs,
        olmcInv (Blueprint.new content.chip).chip x := by
      intro x hx
      rw [List.eq_of_mem_replicate hx]
      exact olmcInv_defOLMC _
    obtain ⟨hchip, hinv⟩ := addEquations_inv content.eqns
      (Blueprint.new content.chip) b0 hadd hinit
    have hobo : o ∈ b0.olmcs := ho
    have := hinv o hobo
    rw [show (Blueprint.new content.chip).chip = content.chip from rfl] at this
    rcases this with ⟨h1, h2⟩
    refine ⟨h1, ?_⟩
    intro hc
    apply h2
    simpa [hchip] using hc

/-- C5 witness: a GAL22V10 program with a registered output and an
enable on pin 14 yields an Ok blueprint whose OLMC 0 has `tri_con` set
and a non-empty output, and an empty GAL16V8 program satisfies the
registered-exclusion clause on its default OLMCs. -/
theorem C5_blueprint_invariants_witness :
    ((((Blueprint.new Chip.GAL22V10).add_equation
        ⟨1, LHS.Pin ⟨false, 14⟩ Suffix.R, [⟨false, 2⟩], [false]⟩).1.add_equation
        ⟨2, LHS.Pin ⟨false, 14⟩ Suffix.E, [⟨false, 3⟩], [false]⟩).1.olmcs.getD 0
        defOLMC).output.isSome = true
    ∧ ¬(defOLMC.tri_con.isSome = true ∧
        defOLMC.outputMode = some PinMode.Registered) := by
  have h22 := C5_blueprint_invariants
    ⟨Chip.GAL22V10, [], [],
      [⟨1, LHS.Pin ⟨false, 14⟩ Suffix.R, [⟨false, 2⟩], [false]⟩,
       ⟨2, LHS.Pin ⟨false, 14⟩ Suffix.E, [⟨false, 3⟩], [false]⟩]⟩
    { (((Blueprint.new Chip.GAL22V10).add_equation
        ⟨1, LHS.Pin ⟨false, 14⟩ Suffix.R, [⟨false, 2⟩], [false]⟩).1.add_equation
        ⟨2, LHS.Pin ⟨false, 14⟩ Suffix.E, [⟨false, 3⟩], [false]⟩).1
      with sig := [], pins := [] }
    ((((Blueprint.new Chip.GAL22V10).add_equation
        ⟨1, LHS.Pin ⟨false, 14⟩ Suffix.R, [⟨false, 2⟩], [false]⟩).1.add_equation
        ⟨2, LHS.Pin ⟨false, 14⟩ Suffix.E, [⟨false, 3⟩], [false]⟩).1.olmcs.getD 0
        defOLMC)
    rfl (by decide)
  have h16 := C5_blueprint_invariants ⟨Chip.GAL16V8, [], [], []⟩
    (Blueprint.new Chip.GAL16V8) defOLMC rfl (by decide)
  exact ⟨h22.1 (Or.inl (by decide)), h16.2 (Or.inl rfl)⟩

theorem setFeedback_length (l : List OLMC) (i : Nat) :
    (setFeedback l i).length = l.length := by
  induction l generalizing i with
  | nil => rfl
  | cons a as ih => cases i <;> simp [setFeedback, ih]

theorem mark_feedback_length (chip : Chip) :
    ∀ (rhs : List Pin) (l : List OLMC),
      (mark_feedback chip l rhs).length = l.length := by
  intro rhs
  induction rhs with
  | nil => intro l; rfl
  | cons p ps ih =>
    intro l
    have hstep : mark_feedback chip l (p :: ps) =
        mark_feedback chip (match chip.pin_to_olmc p.pin with
          | some j => setFeedback l j
          | none => l) ps := rfl
    rw [hstep]
    cases hpo : chip.pin_to_olmc p.pin with
    | none => simp only [hpo]; exact ih l
    | some j =>
      simp only [hpo]
      rw [ih (setFeedback l j), setFeedback_length]

theorem setFeedback_getD (l : List OLMC) :
    ∀ (j i : Nat) (d : OLMC),
      ((setFeedback l j).getD i d).feedback = true ↔
        ((l.getD i d).feedback = true ∨ (i = j ∧ j < l.length)) := by
  induction l with
  | nil => intro j i d; simp [setFeedback]
  | cons a as ih =>
    intro j i d
    cases j with
    | zero =>
      cases i with
      | zero => simp [setFeedback]
      | succ n => simp [setFeedback]
    | succ m =>
      cases i with
      | zero => simp [setFeedback]
      | succ n =>
        have := ih m n d
        simp only [setFeedback, List.getD_cons_succ, List.length_cons]
        rw [this]
        constructor
        · rintro (hf | ⟨rfl, hm⟩)
          · exact Or.inl hf
          · exact Or.inr ⟨rfl, Nat.succ_lt_succ hm⟩
        · rintro (hf | ⟨hnm, hm⟩)
          · exact Or.inl hf
          · cases Nat.succ_injective hnm
            exact Or.inr ⟨rfl, Nat.lt_of_succ_lt_succ hm⟩

theorem mark_feedback_getD (chip : Chip) :
    ∀ (rhs : List Pin) (l : List OLMC) (i : Nat) (d : OLMC),
      ((mark_feedback chip l rhs).getD i d).feedback = true ↔
        ((l.getD i d).feedback = true ∨
          ∃ p ∈ rhs, chip.pin_to_olmc p.pin = some i ∧ i < l.length) := by
  intro rhs
  induction rhs with
  | nil => intro l i d; simp [mark_feedback]
  | cons p ps ih =>
    intro l i d
    have hstep : mark_feedback chip l (p :: ps) =
        mark_feedback chip (match chip.pin_to_olmc p.pin with
          | some j => setFeedback l j
          | none => l) ps := rfl
    rw [hstep]
    cases hpo : chip.pin_to_olmc p.pin with
    | none =>
      simp only [hpo]
      rw [ih l i d]
      simp only [List.mem_cons]
      constructor
      · rintro (hf | ⟨q, hq, hqi, hil⟩)
        · exact Or.inl hf
        · exact Or.inr ⟨q, Or.inr hq, hqi, hil⟩
      · rintro (hf | ⟨q, hq | hq, hqi, hil⟩)
        · exact Or.inl hf
        · subst hq; rw [hpo] at hqi; cases hqi
        · exact Or.inr ⟨q, hq, hqi, hil⟩
    | some j =>
      simp only [hpo]
      rw [ih (setFeedback l j) i d, setFeedback_getD, setFeedback_length]
      simp only [List.mem_cons]
      constructor
      · rintro ((hf | ⟨rfl, hj⟩) | ⟨q, hq, hqi, hil⟩)
        · exact Or.inl hf
        · exact Or.inr ⟨p, Or.inl rfl, by rw [hpo], hj⟩
        · exact Or.inr ⟨q, Or.inr hq, hqi, hil⟩
      · rintro (hf | ⟨q, hq | hq, hqi, hil⟩)
        · exact Or.inl (Or.inl hf)
        · subst hq
          rw [hpo] at hqi
          cases hqi
          exact Or.inl (Or.inr ⟨rfl, hil⟩)
        · exact Or.inr ⟨q, hq, hqi, hil⟩

theorem dispatch_feedback (chip : Chip) (o : OLMC) (p : Pin) (t : Term)
    (s : Suffix) : (dispatchSuffix chip o p t s).1.feedback = o.feedback := by
  rcases o with ⟨a, out, tri, ck, rs, ap, fb⟩
  cases s <;> cases hp : p.neg <;> cases tri <;>
    rcases out with _ | ⟨m, tm⟩ <;> try cases m
  all_goals
    (cases chip <;> cases ck <;> cases rs <;> cases ap <;>
      simp [dispatchSuffix, OLMC.set_base, OLMC.set_enable, OLMC.set_clock,
        OLMC.set_arst, OLMC.set_aprst, hp])

theorem getD_set_feedback :
    ∀ (l : List OLMC) (j : Nat) (r : OLMC),
      r.feedback = (l.getD j defOLMC).feedback →
      ∀ (i : Nat) (d : OLMC),
        ((l.set j r).getD i d).feedback = (l.getD i d).feedback := by
  intro l
  induction l with
  | nil => intro j r hr i d; simp
  | cons a as ih =>
    intro j r hr i d
    cases j with
    | zero =>
      cases i with
      | zero => simpa using hr
      | succ n => simp
    | succ m =>
      cases i with
      | zero => simp
      | succ n => exact ih m r (by simpa using hr) n d

theorem add_equation_olmcs_length (b : Blueprint) (e : Equation) :
    (b.add_equation e).1.olmcs.length = b.olmcs.length := by
  rcases hterm : eqn_to_term b.chip e with c | t
  · simp [Blueprint.add_equation, hterm, mark_feedback_length]
  · rcases hlhs : e.lhs with ⟨ap, sfx⟩ | _ | _
    · rcases hpo : b.chip.pin_to_olmc ap.pin with _ | j <;>
        simp [Blueprint.add_equation, hterm, hlhs, hpo, mark_feedback_length]
    · simp only [Blueprint.add_equation, hterm, hlhs]
      split <;> simp [mark_feedback_length]
    · simp only [Blueprint.add_equation, hterm, hlhs]
      split <;> simp [mark_feedback_length]

theorem add_equation_feedback (b : Blueprint) (e : Equation) (i : Nat)
    (d : OLMC) :
    ((b.add_equation e).1.olmcs.getD i d).feedback = true ↔
      ((b.olmcs.getD i d).feedback = true ∨
        ∃ p ∈ e.rhs, b.chip.pin_to_olmc p.pin = some i ∧
          i < b.olmcs.length) := by
  have hlen := mark_feedback_length b.chip e.rhs b.olmcs
  rcases hterm : eqn_to_term b.chip e with c | t
  · simp only [Blueprint.add_equation, hterm]
    exact mark_feedback_getD b.chip e.rhs b.olmcs i d
  · rcases hlhs : e.lhs with ⟨ap, sfx⟩ | _ | _
    · rcases hpo : b.chip.pin_to_olmc ap.pin with _ | j
      · simp only [Blueprint.add_equation, hterm, hlhs, hpo]
        exact mark_feedback_getD b.chip e.rhs b.olmcs i d
      · simp only [Blueprint.add_equation, hterm, hlhs, hpo]
        rw [getD_set_feedback (mark_feedback b.chip b.olmcs e.rhs) j _
          (dispatch_feedback b.chip _ ap t sfx) i d]
        exact mark_feedback_getD b.chip e.rhs b.olmcs i d
    · simp only [Blueprint.add_equation, hterm, hlhs]
      split <;> exact mark_feedback_getD b.chip e.rhs b.olmcs i d
    · simp only [Blueprint.add_equation, hterm, hlhs]
      split <;> exact mark_feedback_getD b.chip e.rhs b.olmcs i d

theorem addEquations_feedback :
    ∀ (es : List Equation) (b bp : Blueprint),
      addEquations b es = Except.ok bp →
      bp.chip = b.chip ∧ bp.olmcs.length = b.olmcs.length ∧
      ∀ (i : Nat) (d : OLMC),
        ((bp.olmcs.getD i d).feedback = true ↔
          ((b.olmcs.getD i d).feedback = true ∨
            ∃ e ∈ es, ∃ p ∈ e.rhs, b.chip.pin_to_olmc p.pin = some i ∧
              i < b.olmcs.length)) := by
  intro es
  induction es with
  | nil =>
    intro b bp hok
    simp only [addEquations] at hok
    cases hok
    simp
  | cons e rest ih =>
    intro b bp hok
    simp only [addEquations] at hok
    split at hok
    · rename_i b' hstep
      obtain ⟨hc, hl, hf⟩ := ih b' bp hok
      have hcb : b'.chip = b.chip := by
        have h0 := add_equation_chip b e
        rw [hstep] at h0
        exact h0
      have hlb : b'.olmcs.length = b.olmcs.length := by
        have h0 := add_equation_olmcs_length b e
        rw [hstep] at h0
        exact h0
      refine ⟨hc.trans hcb, hl.trans hlb, ?_⟩
      intro i d
      rw [hf i d]
      have hfe := add_equation_feedback b e i d
      rw [hstep] at hfe
      rw [hfe, hcb, hlb]
      simp only [List.mem_cons]
      constructor
      · rintro ((hb | ⟨p, hp, hpi, hil⟩) | ⟨e', he', p, hp, hpi, hil⟩)
        · exact Or.inl hb
        · exact Or.inr ⟨e, Or.inl rfl, p, hp, hpi, hil⟩
        · exact Or.inr ⟨e', Or.inr he', p, hp, hpi, hil⟩
      · rintro (hb | ⟨e', he' | he', p, hp, hpi, hil⟩)
        · exact Or.inl (Or.inl hb)
        · subst he'
          exact Or.inl (Or.inr ⟨p, hp, hpi, hil⟩)
        · exact Or.inr ⟨e', he', p, hp, hpi, hil⟩
    · cases hok

theorem getD_replicate_self (n : Nat) (a : OLMC) (i : Nat) :
    (List.replicate n a).getD i a = a := by
  by_cases h : i < n
  · rw [List.getD_eq_getElem _ _ (by simpa using h)]
    exact List.getElem_replicate _ _
  · exact List.getD_eq_default _ _ (by simpa using Nat.le_of_not_lt h)

/-- C9: for every Content accepted by `Blueprint::from` and every OLMC
index in range, the OLMC's `feedback` flag is true exactly when some
equation's RHS contains a literal whose pin maps to that OLMC under
`pin_to_olmc` — whether or not that pin is ever driven as an output. -/
theorem C9_feedback_marking (content : Content) (bp : Blueprint) (i : Nat)
    (h : Blueprint.fromContent content = Except.ok bp)
    (hi : i < bp.olmcs.length) :
    ((bp.olmcs.getD i defOLMC).feedback = true ↔
      ∃ e ∈ content.eqns, ∃ p ∈ e.rhs,
        content.chip.pin_to_olmc p.pin = some i) := by
  revert h
  simp only [Blueprint.fromContent]
  split
  · intro h; cases h
  · rename_i b0 hadd
    intro h
    cases h
    obtain ⟨hc, hl, hf⟩ := addEquations_feedback content.eqns
      (Blueprint.new content.chip) b0 hadd
    simp only at hi ⊢
    have hilen : i < (Blueprint.new content.chip).olmcs.length := by
      rw [← hl]; exact hi
    rw [hf i defOLMC]
    have hrep : ((Blueprint.new content.chip).olmcs.getD i defOLMC) =
        defOLMC := getD_replicate_self _ _ _
    rw [hrep]
    have hchipnew : (Blueprint.new content.chip).chip = content.chip := rfl
    rw [hchipnew] at hf ⊢
    simp [defOLMC, hilen]

/-- C9 witness: the equation `pin19 = pin13` on GAL16V8 marks OLMC 1
(the macrocell of pin 13) as feedback even though pin 13 is never
driven. -/
theorem C9_feedback_marking_witness :
    ((((Blueprint.new Chip.GAL16V8).add_equation
        ⟨1, LHS.Pin ⟨false, 19⟩ Suffix.None, [⟨false, 13⟩],
          [false]⟩).1).olmcs.getD 1 defOLMC).feedback = true := by
  have h := C9_feedback_marking
    ⟨Chip.GAL16V8, [], [],
      [⟨1, LHS.Pin ⟨false, 19⟩ Suffix.None, [⟨false, 13⟩], [false]⟩]⟩
    { ((Blueprint.new Chip.GAL16V8).add_equation
        ⟨1, LHS.Pin ⟨false, 19⟩ Suffix.None, [⟨false, 13⟩], [false]⟩).1
      with sig := [], pins := [] }
    1 rfl (by decide)
  exact h.mpr ⟨_, List.mem_singleton.mpr rfl, ⟨false, 13⟩, by simp, by decide⟩

theorem foldl_emit (sp : Nat → List Char) (ch : Nat → Char) :
    ∀ (l : List Nat) (init : List Char),
      l.foldl (fun b col => (b ++ sp col) ++ [ch col]) init =
        init ++ (l.map (fun col => sp col ++ [ch col])).flatten := by
  intro l
  induction l with
  | nil => intro init; simp
  | cons x xs ih =>
    intro init
    simp only [List.foldl_cons, List.map_cons, List.flatten_cons]
    rw [ih]
    simp [List.append_assoc]

theorem make_row_eq (buf : List Char) (w row : Nat) (data : Nat → Nat) :
    make_row buf w row data =
      (buf ++ rowPrefix row) ++
        ((List.range w).map (fun col =>
          (if col % 4 = 0 then [' '] else []) ++
            [if data (row * w + col) ≠ 0 then '-' else 'x'])).flatten :=
  foldl_emit (fun col => if col % 4 = 0 then [' '] else [])
    (fun col => if data (row * w + col) ≠ 0 then '-' else 'x')
    (List.range w) (buf ++ rowPrefix row)

theorem row_chunks_length (ch : Nat → Char) :
    ∀ (w : Nat),
      (((List.range w).map (fun col =>
        (if col % 4 = 0 then [' '] else []) ++ [ch col])).flatten).length =
        w + (w + 3) / 4 := by
  intro w
  induction w with
  | zero => simp
  | succ n ih =>
    rw [List.range_succ, List.map_append, List.flatten_append]
    simp only [List.length_append, ih, List.map_cons, List.map_nil,
      List.flatten_cons, List.flatten_nil, List.append_nil]
    by_cases h : n % 4 = 0 <;> simp [h] <;> omega

theorem join_chunks_get (ch : Nat → Char) (w c : Nat) (hc : c < w) :
    (((List.range w).map (fun col =>
        (if col % 4 = 0 then [' '] else []) ++ [ch col])).flatten).get?
        (c + c / 4 + 1) = some (ch c)
    ∧ (c % 4 = 0 →
      (((List.range w).map (fun col =>
          (if col % 4 = 0 then [' '] else []) ++ [ch col])).flatten).get?
          (c + c / 4) = some ' ') := by
  have hsplit : List.range w = List.range (c + 1) ++
      (List.range (w - (c + 1))).map ((c + 1) + ·) := by
    rw [← List.range_add]
    congr 1
    omega
  have hlen0 := row_chunks_length ch c
  rw [hsplit, List.map_append, List.flatten_append, List.range_succ,
    List.map_append, List.flatten_append]
  simp only [List.map_cons, List.map_nil, List.flatten_cons,
    List.flatten_nil, List.append_nil, List.append_assoc]
  constructor
  · rw [List.get?_append_right (by rw [hlen0]; omega)]
    rw [hlen0]
    by_cases hm : c % 4 = 0
    · have hidx : c + c / 4 + 1 - (c + (c + 3) / 4) = 1 := by omega
      rw [hidx]
      simp [hm]
    · have hidx : c + c / 4 + 1 - (c + (c + 3) / 4) = 0 := by omega
      rw [hidx]
      simp [hm]
  · intro hm
    rw [List.get?_append_right (by rw [hlen0]; omega)]
    rw [hlen0]
    have hidx : c + c / 4 - (c + (c + 3) / 4) = 0 := by omega
    rw [hidx]
    simp [hm]

/-- C10: in a fuse-listing row, for every column `c` within the row
width, the character printed at body offset `c + c / 4 + 1` (after the
row header) is `-` exactly when fuse byte `row * width + c` is
non-zero and `x` exactly when it is zero; and one space is inserted
before column 0 and every further column that is a multiple of 4, at
body offset `c + c / 4`. -/
theorem C10_make_row_chars (buf : List Char) (w row : Nat)
    (data : Nat → Nat) (c : Nat) (hc : c < w) :
    (make_row buf w row data).get?
        (buf.length + (rowPrefix row).length + (c + c / 4 + 1)) =
      some (if data (row * w + c) ≠ 0 then '-' else 'x')
    ∧ (c % 4 = 0 →
      (make_row buf w row data).get?
          (buf.length + (rowPrefix row).length + (c + c / 4)) =
        some ' ') := by
  have h := join_chunks_get
    (fun col => if data (row * w + col) ≠ 0 then '-' else 'x') w c hc
  have hlen : (buf ++ rowPrefix row).length =
      buf.length + (rowPrefix row).length := List.length_append _ _
  rw [make_row_eq]
  constructor
  · rw [List.get?_append_right (by rw [hlen]; omega)]
    rw [hlen]
    have hidx : buf.length + (rowPrefix row).length + (c + c / 4 + 1) -
        (buf.length + (rowPrefix row).length) = c + c / 4 + 1 := by omega
    rw [hidx]
    exact h.1
  · intro hm
    rw [List.get?_append_right (by rw [hlen]; omega)]
    rw [hlen]
    have hidx : buf.length + (rowPrefix row).length + (c + c / 4) -
        (buf.length + (rowPrefix row).length) = c + c / 4 := by omega
    rw [hidx]
    exact h.2 hm

/-- C10 witness: in a 4-column row over the all-ones fuse array, the
character of column 0 sits right after the leading space and is `-`. -/
theorem C10_make_row_chars_witness :
    (make_row [] 4 0 (fun _ => 1)).get? (0 + (rowPrefix 0).length + 1) =
      some '-'
    ∧ (make_row [] 4 0 (fun _ => 1)).get? (0 + (rowPrefix 0).length + 0) =
      some ' ' := by
  have h := C10_make_row_chars [] 4 0 (fun _ => 1) 0 (by decide)
  exact ⟨by simpa using h.1, by simpa using h.2 rfl⟩

end Galette
